import Mathlib

/-!
# GithubAPI-UserGistsList: the request handler of `server.go`

A shallow embedding of `Server.handleUserGists` and of the library operations it
calls, followed by theorems about the handler's request/response contract.

Conventions of the embedding.

* A value of Go type `interface{}` produced by `encoding/json` is a `JVal`.
* A Go `map[string]T` is an association list read by first match (`mapIndex`);
  `range` over a map visits every key once (`mapEntries`); assignment to a key is
  `mapSet`. The handler's results do not depend on the order in which `range`
  visits the keys, so the list order is used.
* A runtime panic is `none` in the helper functions and `Outcome.panicked` in the
  handler.
* The outside world (request construction and the HTTP exchange with the
  upstream) is a function from the upstream URL to an `Upstream` result.
-/

namespace GistsServer

/-! ## Data model -/

/-- Go value of static type `interface{}` as `encoding/json` decodes it: `nil`,
`bool`, `float64` (kept as its IEEE-754 bit pattern), `string`, `[]interface{}`
and `map[string]interface{}`. -/
inductive JVal where
  | null
  | bool (b : Bool)
  | num (bits : Nat)
  | str (s : String)
  | arr (elems : List JVal)
  | obj (members : List (String × JVal))

/-- Go struct `GistFile` (server.go, lines 13-17). -/
structure GistFile where
  Filename : String
  Language : String
  RawURL : String

/-- Go struct `Gist` (server.go, lines 19-24). -/
structure Gist where
  ID : String
  Description : String
  HTMLURL : String
  Files : List (String × GistFile)

/-- The part of `*http.Request` the handler reads: `r.URL.Path` and the key/value
pairs of `r.URL.Query()`, in the order of the raw query string. -/
structure Request where
  path : String
  query : List (String × String)

/-- Body written to the `http.ResponseWriter`: either the bytes of a text, or the
JSON text of a value (written by `json.Encoder.Encode`, identified up to JSON
equivalence). -/
inductive Body where
  | text (s : String)
  | json (v : JVal)

/-- What the handler writes to the `http.ResponseWriter`. -/
structure Response where
  status : Nat
  headers : List (String × String)
  body : Body

/-- Result of one run of the handler. -/
inductive Outcome where
  | responded (resp : Response)
  | panicked

/-- What the upstream body turns out to be once the handler reads and parses it:
`io.ReadAll` fails, the bytes are not a JSON text that `encoding/json` can
decode, or they are the JSON text of a value. -/
inductive UpstreamBody where
  | unreadable
  | malformed
  | json (v : JVal)

/-- Result of `http.NewRequest` followed by `s.client.Do` for a given URL. -/
inductive Upstream where
  | requestError
  | transportError
  | response (statusCode : Nat) (body : UpstreamBody)

/-! ## Go maps as association lists -/

/-- Go `m[k]` on a `map[string]interface{}`: the value stored under `k`, `nil`
when the key is missing (also when the map itself is nil). -/
def mapIndex (m : List (String × JVal)) (k : String) : JVal :=
  (m.lookup k).getD JVal.null

/-- Entries visited by `for k, v := range m`: every key once, with the value
`m[k]`. -/
def mapEntries {β : Type} : List (String × β) → List (String × β)
  | [] => []
  | (k, v) :: rest => (k, v) :: (mapEntries rest).filter (fun p => p.1 != k)

/-- Go `m[k] = v`. -/
def mapSet {β : Type} : List (String × β) → String → β → List (String × β)
  | [], k, v => [(k, v)]
  | (k', v') :: rest, k, v =>
    if k' == k then (k, v) :: rest else (k', v') :: mapSet rest k v

/-! ## Library operations -/

/-- Go `strings.TrimPrefix(s, pre)`. -/
def trimPrefix (s pre : String) : String :=
  if pre.data.isPrefixOf s.data then String.mk (s.data.drop pre.data.length) else s

/-- Go `url.Values.Get(key)`: the first value of the key, `""` when there is
none. -/
def queryGet (q : List (String × String)) (key : String) : String :=
  (q.lookup key).getD ""

/-- Go type assertion `v.(string)`; `none` is the panic of a failed assertion. -/
def asString : JVal → Option String
  | JVal.str s => some s
  | _ => none

/-- Go type assertion `v.(map[string]interface{})` in its two-result form. -/
def asMap : JVal → Option (List (String × JVal))
  | JVal.obj m => some m
  | _ => none

/-- Insertion of a pair into a list of pairs sorted by key. -/
def insertByKey (p : String × String) : List (String × String) → List (String × String)
  | [] => [p]
  | q :: rest => if p.1 < q.1 then p :: q :: rest else q :: insertByKey p rest

/-- Sorting of pairs by key, the order in which `fmt` prints a map. -/
def sortByKey : List (String × String) → List (String × String)
  | [] => []
  | p :: rest => insertByKey p (sortByKey rest)

mutual
/-- Go `fmt.Sprintf("%v", v)` for a decoded JSON value; `fmtG` is the `%v`
formatting of a `float64`, given by its bit pattern. -/
def sprintV (fmtG : Nat → String) : JVal → String
  | JVal.null => "<nil>"
  | JVal.bool b => if b then "true" else "false"
  | JVal.num bits => fmtG bits
  | JVal.str s => s
  | JVal.arr elems => "[" ++ " ".intercalate (sprintElems fmtG elems) ++ "]"
  | JVal.obj members =>
    "map[" ++ " ".intercalate
      ((sortByKey (mapEntries (sprintMembers fmtG members))).map (fun p => p.1 ++ ":" ++ p.2))
      ++ "]"
/-- The `%v` texts of the elements of a slice. -/
def sprintElems (fmtG : Nat → String) : List JVal → List String
  | [] => []
  | v :: rest => sprintV fmtG v :: sprintElems fmtG rest
/-- The `%v` texts of the values of a map, by key. -/
def sprintMembers (fmtG : Nat → String) : List (String × JVal) → List (String × String)
  | [] => []
  | (k, v) :: rest => (k, sprintV fmtG v) :: sprintMembers fmtG rest
end

/-- Go `http.Error(w, msg, code)`: sets `Content-Type: text/plain; charset=utf-8`
and `X-Content-Type-Options: nosniff`, calls `w.WriteHeader(code)`, and writes the
message with `fmt.Fprintln`, that is, followed by a line feed. `WriteHeader`
panics (`invalid WriteHeader code`) for a code below 100 or above 999, before
anything is written. -/
def httpError (msg : String) (code : Nat) : Outcome :=
  if code < 100 ∨ 999 < code then Outcome.panicked
  else
    Outcome.responded
      { status := code
        headers := [("Content-Type", "text/plain; charset=utf-8"),
                    ("X-Content-Type-Options", "nosniff")]
        body := Body.text (msg ++ "\n") }

/-- Decoding of one array element into a `map[string]interface{}`: a JSON object
gives its map, JSON `null` gives the nil map (which reads like the empty map),
anything else is an `UnmarshalTypeError`. -/
def unmarshalItem : JVal → Option (List (String × JVal))
  | JVal.obj m => some m
  | JVal.null => some []
  | _ => none

/-- Decoding of the elements of an array, in order; one element that cannot be
decoded makes the whole call report an error. -/
def unmarshalItems : List JVal → Option (List (List (String × JVal)))
  | [] => some []
  | v :: rest =>
    match unmarshalItem v with
    | none => none
    | some m =>
      match unmarshalItems rest with
      | none => none
      | some ms => some (m :: ms)

/-- Go `json.Unmarshal(body, &rawGists)` with `rawGists []map[string]interface{}`,
on a body that is the JSON text of `v`; `none` is a non-nil error. JSON `null`
leaves the slice nil without an error; an array is decoded element by element;
every other value is an `UnmarshalTypeError`. The handler only ranges over the
slice, so a nil slice is the empty list. -/
def unmarshalGists : JVal → Option (List (List (String × JVal)))
  | JVal.null => some []
  | JVal.arr elems => unmarshalItems elems
  | _ => none

/-! ## JSON written by `json.NewEncoder(w).Encode(gists)` -/

/-- JSON object of a `GistFile`, by its field tags. -/
def encodeFile (f : GistFile) : JVal :=
  JVal.obj [("filename", JVal.str f.Filename), ("language", JVal.str f.Language),
            ("raw_url", JVal.str f.RawURL)]

/-- JSON object of a `Gist`, by its field tags; `Files` is never a nil map, so it
is always an object. The members of the files object are listed in the order of
the association list; as a JSON object it is read by key. -/
def encodeGist (g : Gist) : JVal :=
  JVal.obj [("id", JVal.str g.ID), ("description", JVal.str g.Description),
            ("html_url", JVal.str g.HTMLURL),
            ("files", JVal.obj (g.Files.map (fun p => (p.1, encodeFile p.2))))]

/-- JSON value of a `[]Gist`: a nil slice (`none`) is encoded as `null`, any
other slice as an array. -/
def encodeGists : Option (List Gist) → JVal
  | none => JVal.null
  | some gs => JVal.arr (gs.map encodeGist)

/-! ## The handler -/

/-- Lines 104-108: the `GistFile` literal built from one file object; `none` when
`fMap["filename"].(string)` or `fMap["raw_url"].(string)` panics. -/
def projectFile (fmtG : Nat → String) (fMap : List (String × JVal)) : Option GistFile :=
  match asString (mapIndex fMap "filename") with
  | none => none
  | some filename =>
    match asString (mapIndex fMap "raw_url") with
    | none => none
    | some rawURL =>
      some { Filename := filename
             Language := sprintV fmtG (mapIndex fMap "language")
             RawURL := rawURL }

/-- Lines 102-110: the loop over the entries of `files`, updating `filesMap`. -/
def projectFilesLoop (fmtG : Nat → String) :
    List (String × JVal) → List (String × GistFile) → Option (List (String × GistFile))
  | [], filesMap => some filesMap
  | (name, f) :: rest, filesMap =>
    match asMap f with
    | some fMap =>
      match projectFile fmtG fMap with
      | none => none
      | some gf => projectFilesLoop fmtG rest (mapSet filesMap name gf)
    | none => projectFilesLoop fmtG rest filesMap

/-- Lines 100-111: `filesMap` for one upstream item. -/
def projectFiles (fmtG : Nat → String) (g : List (String × JVal)) :
    Option (List (String × GistFile)) :=
  match asMap (mapIndex g "files") with
  | some files => projectFilesLoop fmtG (mapEntries files) []
  | none => some []

/-- Lines 100-117: the `Gist` built from one upstream item; `none` when a type
assertion panics. -/
def projectGist (fmtG : Nat → String) (g : List (String × JVal)) : Option Gist :=
  match projectFiles fmtG g with
  | none => none
  | some filesMap =>
    match asString (mapIndex g "id") with
    | none => none
    | some id =>
      match asString (mapIndex g "html_url") with
      | none => none
      | some htmlURL =>
        some { ID := id
               Description := sprintV fmtG (mapIndex g "description")
               HTMLURL := htmlURL
               Files := filesMap }

/-- Go `append(gists, x)` on a slice that is nil (`none`) or not. -/
def appendGist : Option (List Gist) → Gist → Option (List Gist)
  | none, x => some [x]
  | some gs, x => some (gs ++ [x])

/-- Lines 98-118: the loop over `rawGists`, from the current value of `gists`;
the outer `none` is a panic. -/
def projectLoop (fmtG : Nat → String) :
    List (List (String × JVal)) → Option (List Gist) → Option (Option (List Gist))
  | [], gists => some gists
  | g :: rest, gists =>
    match projectGist fmtG g with
    | none => none
    | some x => projectLoop fmtG rest (appendGist gists x)

/-- Lines 50-62: the upstream URL. -/
def buildURL (user page perPage : String) : String :=
  let url := "https://api.github.com/users/" ++ user ++ "/gists"
  if page ≠ "" ∨ perPage ≠ "" then
    let url := url ++ "?"
    let url := if page ≠ "" then url ++ "page=" ++ page else url
    if perPage ≠ "" then
      let url := if page ≠ "" then url ++ "&" else url
      url ++ "per_page=" ++ perPage
    else url
  else url

/-- Line 40: the username taken from the request path. -/
def userOf (r : Request) : String :=
  trimPrefix r.path "/"

/-- The URL the handler asks the upstream for (lines 40-62). -/
def upstreamURL (r : Request) : String :=
  buildURL (userOf r) (queryGet r.query "page") (queryGet r.query "per_page")

/-- Lines 79-121: what the handler does with the upstream's response. -/
def handleResponse (fmtG : Nat → String) (statusCode : Nat) (body : UpstreamBody) : Outcome :=
  if statusCode ≠ 200 then
    httpError ("GitHub API error: " ++ toString statusCode) statusCode
  else
    match body with
    | UpstreamBody.unreadable =>
      httpError "failed to read response" 500
    | UpstreamBody.malformed =>
      httpError "failed to parse GitHub response" 500
    | UpstreamBody.json v =>
      match unmarshalGists v with
      | none => httpError "failed to parse GitHub response" 500
      | some rawGists =>
        match projectLoop fmtG rawGists none with
        | none => Outcome.panicked
        | some gists =>
          Outcome.responded
            { status := 200
              headers := [("Content-Type", "application/json")]
              body := Body.json (encodeGists gists) }

/-- Go method `Server.handleUserGists` (server.go, lines 39-122). `net` gives, for
the URL built, the result of `http.NewRequest` and `s.client.Do`. -/
def handleUserGists (fmtG : Nat → String) (net : String → Upstream) (r : Request) : Outcome :=
  if userOf r = "" then
    httpError "user not specified" 400
  else
    match net (upstreamURL r) with
    | Upstream.requestError =>
      httpError "failed to create request" 500
    | Upstream.transportError =>
      httpError "failed to contact GitHub" 502
    | Upstream.response statusCode body => handleResponse fmtG statusCode body

/-! ## Predicates of the specification -/

/-- The member `k` of the map is present and a JSON string. -/
def stringField (m : List (String × JVal)) (k : String) : Bool :=
  (asString (mapIndex m k)).isSome

/-- The value is a JSON object whose `filename` or `raw_url` is missing or not a
JSON string. -/
def fileEntryBad : JVal → Bool
  | JVal.obj fMap => !stringField fMap "filename" || !stringField fMap "raw_url"
  | _ => false

/-- The item has an `id` or `html_url` that is missing or not a JSON string, or an
object-valued `files` with an object-valued entry whose `filename` or `raw_url`
is missing or not a JSON string. -/
def itemBad (g : List (String × JVal)) : Bool :=
  !stringField g "id" || !stringField g "html_url" ||
    match mapIndex g "files" with
    | JVal.obj files => (mapEntries files).any (fun p => fileEntryBad p.2)
    | _ => false

/-- The value is a JSON object. -/
def isObject : JVal → Bool
  | JVal.obj _ => true
  | _ => false

/-- The value is JSON `null`. -/
def isNull : JVal → Bool
  | JVal.null => true
  | _ => false

/-- The value is a JSON array. -/
def isArray : JVal → Bool
  | JVal.arr _ => true
  | _ => false

/-- The value is a JSON array of JSON objects. -/
def isArrayOfObjects : JVal → Bool
  | JVal.arr elems => elems.all isObject
  | _ => false

/-- The value is a JSON array each of whose elements is a JSON object or `null`. -/
def isArrayOfObjectsOrNulls : JVal → Bool
  | JVal.arr elems => elems.all (fun e => isObject e || isNull e)
  | _ => false

/-- The first path segment of a request path: the text between the leading slash
and the next slash, if any. -/
def firstSegment (path : String) : String :=
  String.mk ((trimPrefix path "/").data.takeWhile (fun c => c != '/'))

/-- The query string the specification describes: exactly the parameters present
in the request, `page` before `per_page`, joined by `&`, after a `?`; nothing
when neither is present. -/
def specQuery (q : List (String × String)) : String :=
  match q.lookup "page", q.lookup "per_page" with
  | none, none => ""
  | some p, none => "?page=" ++ p
  | none, some n => "?per_page=" ++ n
  | some p, some n => "?page=" ++ p ++ "&per_page=" ++ n

/-- The value of a query parameter when it is given with a non-empty first value. -/
def nonEmptyParam (q : List (String × String)) (key : String) : Option String :=
  if queryGet q key = "" then none else some (queryGet q key)

/-- The query string of the parameters given with a non-empty value, `page` before
`per_page`, joined by `&`, after a `?`; nothing when there is none. -/
def givenQuery (q : List (String × String)) : String :=
  match nonEmptyParam q "page", nonEmptyParam q "per_page" with
  | none, none => ""
  | some p, none => "?page=" ++ p
  | none, some n => "?per_page=" ++ n
  | some p, some n => "?page=" ++ p ++ "&per_page=" ++ n

/-- The upstream item of the specification's end-to-end scenario. -/
def scenarioItem : List (String × JVal) :=
  [("id", JVal.str "1"), ("description", JVal.str "d"), ("html_url", JVal.str "http://x"),
   ("files", JVal.obj [("a.txt", JVal.obj [("filename", JVal.str "a.txt"),
      ("language", JVal.str "text"), ("raw_url", JVal.str "http://r")])])]

/-- An upstream item without a `description` member. -/
def itemWithoutDescription : List (String × JVal) :=
  [("id", JVal.str "1"), ("html_url", JVal.str "http://x"),
   ("files", JVal.obj [("a.txt", JVal.obj [("filename", JVal.str "a.txt"),
      ("raw_url", JVal.str "http://r")]), ("b.txt", JVal.str "not an object")])]

/-! ## Lemmas on maps -/

theorem lookup_filter_ne {β : Type} (l : List (String × β)) (k a : String) (h : a ≠ k) :
    List.lookup a (l.filter (fun p => p.1 != k)) = List.lookup a l := by
  induction l with
  | nil => rfl
  | cons p rest ih =>
    obtain ⟨k', v'⟩ := p
    by_cases hk : k' = k
    · subst hk
      have hne : (a == k') = false := by simpa using h
      simp [List.filter, List.lookup, hne, ih]
    · have hk2 : (k' != k) = true := by simpa using hk
      simp only [List.filter, hk2, List.lookup]
      rw [ih]

theorem lookup_filter_self {β : Type} (l : List (String × β)) (k : String) :
    List.lookup k (l.filter (fun p => p.1 != k)) = none := by
  induction l with
  | nil => rfl
  | cons p rest ih =>
    obtain ⟨k', v'⟩ := p
    by_cases hk : k' = k
    · subst hk
      simp [List.filter, ih]
    · have hk2 : (k' != k) = true := by simpa using hk
      have hk3 : (k == k') = false := by simpa using fun h => hk h.symm
      simp only [List.filter, hk2, List.lookup, hk3]
      exact ih

theorem lookup_mapEntries {β : Type} (m : List (String × β)) (a : String) :
    List.lookup a (mapEntries m) = List.lookup a m := by
  induction m with
  | nil => rfl
  | cons p rest ih =>
    obtain ⟨k, v⟩ := p
    simp only [mapEntries, List.lookup]
    by_cases h : a = k
    · subst h; simp
    · have hne : (a == k) = false := by simpa using h
      simp only [hne]
      rw [lookup_filter_ne _ _ _ h, ih]

theorem keys_filter_sub {β : Type} (l : List (String × β)) (k a : String)
    (h : a ∈ (l.filter (fun p => p.1 != k)).map Prod.fst) : a ∈ l.map Prod.fst ∧ a ≠ k := by
  simp only [List.mem_map, List.mem_filter] at h
  obtain ⟨p, ⟨hp, hpk⟩, rfl⟩ := h
  exact ⟨List.mem_map.mpr ⟨p, hp, rfl⟩, by simpa using hpk⟩

theorem nodup_keys_mapEntries {β : Type} (m : List (String × β)) :
    ((mapEntries m).map Prod.fst).Nodup := by
  induction m with
  | nil => simp [mapEntries]
  | cons p rest ih =>
    obtain ⟨k, v⟩ := p
    simp only [mapEntries, List.map_cons, List.nodup_cons]
    refine ⟨fun h => (keys_filter_sub _ _ _ h).2 rfl, ?_⟩
    exact ih.sublist ((List.filter_sublist _).map Prod.fst)

theorem lookup_mapSet_self {β : Type} (m : List (String × β)) (k : String) (v : β) :
    List.lookup k (mapSet m k v) = some v := by
  induction m with
  | nil => simp [mapSet, List.lookup]
  | cons p rest ih =>
    obtain ⟨k', v'⟩ := p
    by_cases h : k' = k
    · subst h; simp [mapSet, List.lookup]
    · have h1 : (k' == k) = false := by simpa using h
      have h2 : (k == k') = false := by simpa using fun e => h e.symm
      simp [mapSet, List.lookup, h1, h2, ih]

theorem lookup_mapSet_ne {β : Type} (m : List (String × β)) (k a : String) (v : β)
    (hne : a ≠ k) : List.lookup a (mapSet m k v) = List.lookup a m := by
  induction m with
  | nil =>
    have h1 : (a == k) = false := by simpa using hne
    simp [mapSet, List.lookup, h1]
  | cons p rest ih =>
    obtain ⟨k', v'⟩ := p
    by_cases h : k' = k
    · subst h
      have h1 : (a == k') = false := by simpa using hne
      simp [mapSet, List.lookup, h1]
    · have h1 : (k' == k) = false := by simpa using h
      simp only [mapSet, h1, Bool.false_eq_true, if_false, List.lookup]
      rw [ih]

theorem keys_mapSet {β : Type} (m : List (String × β)) (k a : String) (v : β)
    (h : a ∈ (mapSet m k v).map Prod.fst) : a = k ∨ a ∈ m.map Prod.fst := by
  induction m with
  | nil => simpa [mapSet] using h
  | cons p rest ih =>
    obtain ⟨k', v'⟩ := p
    by_cases hk : k' = k
    · have h1 : (k' == k) = true := by simpa using hk
      simp only [mapSet, h1, if_true, List.map_cons, List.mem_cons] at h
      simp only [List.map_cons, List.mem_cons]
      tauto
    · have h1 : (k' == k) = false := by simpa using hk
      simp only [mapSet, h1, Bool.false_eq_true, if_false, List.map_cons, List.mem_cons] at h
      simp only [List.map_cons, List.mem_cons]
      rcases h with h | h
      · exact Or.inr (Or.inl h)
      · rcases ih h with h | h
        · exact Or.inl h
        · exact Or.inr (Or.inr h)

theorem nodup_keys_mapSet {β : Type} (m : List (String × β)) (k : String) (v : β)
    (h : (m.map Prod.fst).Nodup) : ((mapSet m k v).map Prod.fst).Nodup := by
  induction m with
  | nil => simp [mapSet]
  | cons p rest ih =>
    obtain ⟨k', v'⟩ := p
    simp only [List.map_cons, List.nodup_cons] at h
    by_cases hk : k' = k
    · subst hk
      simpa [mapSet] using h
    · have h1 : (k' == k) = false := by simpa using hk
      simp only [mapSet, h1, Bool.false_eq_true, if_false, List.map_cons, List.nodup_cons]
      refine ⟨fun hm => ?_, ih h.2⟩
      rcases keys_mapSet _ _ _ _ hm with e | e
      · exact hk e
      · exact h.1 e

theorem lookup_eq_none_of_not_mem_keys {β : Type} (m : List (String × β)) (a : String)
    (h : a ∉ m.map Prod.fst) : List.lookup a m = none := by
  induction m with
  | nil => rfl
  | cons p rest ih =>
    obtain ⟨k, v⟩ := p
    simp only [List.map_cons, List.mem_cons, not_or] at h
    have h1 : (a == k) = false := by simpa using h.1
    simp only [List.lookup, h1]
    exact ih h.2

theorem mem_of_lookup_eq_some {β : Type} (m : List (String × β)) (a : String) (v : β)
    (h : List.lookup a m = some v) : (a, v) ∈ m := by
  induction m with
  | nil => simp [List.lookup] at h
  | cons p rest ih =>
    obtain ⟨k, w⟩ := p
    by_cases hk : a = k
    · subst hk
      simp only [List.lookup, beq_self_eq_true, Option.some.injEq] at h
      subst h
      exact List.mem_cons_self _ _
    · have h1 : (a == k) = false := by simpa using hk
      simp only [List.lookup, h1] at h
      exact List.mem_cons_of_mem _ (ih h)

theorem lookup_eq_some_of_mem {β : Type} (m : List (String × β)) (a : String) (v : β)
    (hn : (m.map Prod.fst).Nodup) (h : (a, v) ∈ m) : List.lookup a m = some v := by
  induction m with
  | nil => simp at h
  | cons p rest ih =>
    obtain ⟨k, w⟩ := p
    simp only [List.map_cons, List.nodup_cons] at hn
    rcases List.mem_cons.mp h with e | e
    · injection e with e1 e2
      subst e1; subst e2
      simp [List.lookup]
    · have hk : a ≠ k := by
        intro e'
        subst e'
        exact hn.1 (List.mem_map.mpr ⟨(a, v), e, rfl⟩)
      have h1 : (a == k) = false := by simpa using hk
      simp only [List.lookup, h1]
      exact ih hn.2 e

/-! ## Lemmas on the projection -/

theorem projectFile_eq_none_iff (fmtG : Nat → String) (fMap : List (String × JVal)) :
    projectFile fmtG fMap = none ↔ fileEntryBad (JVal.obj fMap) = true := by
  unfold projectFile fileEntryBad stringField
  cases h1 : asString (mapIndex fMap "filename") <;>
    cases h2 : asString (mapIndex fMap "raw_url") <;> simp [h1, h2]

theorem projectFile_eq_some (fmtG : Nat → String) (fMap : List (String × JVal))
    (gf : GistFile) (h : projectFile fmtG fMap = some gf) :
    mapIndex fMap "filename" = JVal.str gf.Filename ∧
    mapIndex fMap "raw_url" = JVal.str gf.RawURL ∧
    gf.Language = sprintV fmtG (mapIndex fMap "language") := by
  unfold projectFile at h
  cases h1 : mapIndex fMap "filename" <;> simp [h1, asString] at h
  cases h2 : mapIndex fMap "raw_url" <;> simp [h2, asString] at h
  subst h
  exact ⟨rfl, rfl, rfl⟩

theorem projectFilesLoop_eq_none_iff (fmtG : Nat → String) (es : List (String × JVal))
    (acc : List (String × GistFile)) :
    projectFilesLoop fmtG es acc = none ↔ es.any (fun p => fileEntryBad p.2) = true := by
  induction es generalizing acc with
  | nil => simp [projectFilesLoop]
  | cons p rest ih =>
    obtain ⟨name, f⟩ := p
    cases f with
    | obj fMap =>
      simp only [projectFilesLoop, asMap, List.any_cons]
      cases hp : projectFile fmtG fMap with
      | none =>
        have := (projectFile_eq_none_iff fmtG fMap).mp hp
        simp [this]
      | some gf =>
        have hb : fileEntryBad (JVal.obj fMap) = false := by
          cases hb : fileEntryBad (JVal.obj fMap) with
          | false => rfl
          | true => rw [(projectFile_eq_none_iff fmtG fMap).mpr hb] at hp; cases hp
        simp only [hb, Bool.false_or]
        exact ih _
    | _ =>
      simp only [projectFilesLoop, asMap, List.any_cons, fileEntryBad, Bool.false_or]
      exact ih _

theorem projectFilesLoop_nodup (fmtG : Nat → String) (es : List (String × JVal))
    (acc out : List (String × GistFile)) (ha : (acc.map Prod.fst).Nodup)
    (h : projectFilesLoop fmtG es acc = some out) : (out.map Prod.fst).Nodup := by
  induction es generalizing acc with
  | nil =>
    simp only [projectFilesLoop, Option.some.injEq] at h
    subst h; exact ha
  | cons p rest ih =>
    obtain ⟨name, f⟩ := p
    cases f with
    | obj fMap =>
      simp only [projectFilesLoop, asMap] at h
      cases hp : projectFile fmtG fMap with
      | none => simp [hp] at h
      | some gf =>
        simp only [hp] at h
        exact ih _ (nodup_keys_mapSet _ _ _ ha) h
    | _ =>
      simp only [projectFilesLoop, asMap] at h
      exact ih _ ha h

theorem projectFilesLoop_lookup (fmtG : Nat → String) (es : List (String × JVal))
    (acc out : List (String × GistFile)) (hn : (es.map Prod.fst).Nodup)
    (h : projectFilesLoop fmtG es acc = some out) (a : String) :
    (∀ fMap, List.lookup a es = some (JVal.obj fMap) →
        List.lookup a out = projectFile fmtG fMap) ∧
    ((∀ fMap, List.lookup a es ≠ some (JVal.obj fMap)) →
        List.lookup a out = List.lookup a acc) := by
  induction es generalizing acc with
  | nil =>
    simp only [projectFilesLoop, Option.some.injEq] at h
    subst h
    simp [List.lookup]
  | cons p rest ih =>
    obtain ⟨name, f⟩ := p
    simp only [List.map_cons, List.nodup_cons] at hn
    by_cases hk : a = name
    · subst hk
      have hrest : List.lookup a rest = none := lookup_eq_none_of_not_mem_keys _ _ hn.1
      have hrest2 : ∀ fMap, List.lookup a rest ≠ some (JVal.obj fMap) := by
        intro fMap; rw [hrest]; exact fun e => by cases e
      simp only [List.lookup, beq_self_eq_true, Option.some.injEq]
      cases f with
      | obj fMap =>
        simp only [projectFilesLoop, asMap] at h
        cases hp : projectFile fmtG fMap with
        | none => simp [hp] at h
        | some gf =>
          simp only [hp] at h
          have := (ih _ hn.2 h).2 hrest2
          rw [lookup_mapSet_self] at this
          constructor
          · intro fMap' e
            injection e with e
            subst e
            rw [this, hp]
          · intro hall
            exact absurd rfl (hall fMap)
      | _ =>
        simp only [projectFilesLoop, asMap] at h
        have := (ih _ hn.2 h).2 hrest2
        constructor
        · intro fMap' e; cases e
        · intro _; exact this
    · have h1 : (a == name) = false := by simpa using hk
      simp only [List.lookup, h1]
      cases f with
      | obj fMap =>
        simp only [projectFilesLoop, asMap] at h
        cases hp : projectFile fmtG fMap with
        | none => simp [hp] at h
        | some gf =>
          simp only [hp] at h
          have := ih _ hn.2 h
          rw [lookup_mapSet_ne _ _ _ _ hk] at this
          exact this
      | _ =>
        simp only [projectFilesLoop, asMap] at h
        exact ih _ hn.2 h

theorem projectFiles_eq_none_iff (fmtG : Nat → String) (g : List (String × JVal)) :
    projectFiles fmtG g = none ↔
      (match mapIndex g "files" with
        | JVal.obj files => (mapEntries files).any (fun p => fileEntryBad p.2)
        | _ => false) = true := by
  unfold projectFiles
  cases h : mapIndex g "files" <;> simp [asMap, projectFilesLoop_eq_none_iff]

theorem projectGist_eq_none_iff (fmtG : Nat → String) (g : List (String × JVal)) :
    projectGist fmtG g = none ↔ itemBad g = true := by
  have hf := projectFiles_eq_none_iff fmtG g
  unfold projectGist itemBad stringField
  cases h0 : projectFiles fmtG g with
  | none =>
    rw [h0] at hf
    simp [hf.mp rfl]
  | some filesMap =>
    rw [h0] at hf
    have hf2 : (match mapIndex g "files" with
        | JVal.obj files => (mapEntries files).any (fun p => fileEntryBad p.2)
        | _ => false) = false := by
      cases hb : (match mapIndex g "files" with
        | JVal.obj files => (mapEntries files).any (fun p => fileEntryBad p.2)
        | _ => false) with
      | false => rfl
      | true => exact absurd (hf.mpr hb) (by simp)
    rw [hf2]
    cases h1 : asString (mapIndex g "id") <;>
      cases h2 : asString (mapIndex g "html_url") <;> simp [h1, h2]

theorem projectGist_isSome (fmtG : Nat → String) (g : List (String × JVal))
    (h : itemBad g = false) : ∃ gist, projectGist fmtG g = some gist := by
  cases hp : projectGist fmtG g with
  | none => rw [(projectGist_eq_none_iff fmtG g).mp hp] at h; cases h
  | some gist => exact ⟨gist, rfl⟩

theorem asString_eq_some (v : JVal) (s : String) (h : asString v = some s) :
    v = JVal.str s := by
  cases v <;> simp [asString] at h
  subst h; rfl

theorem projectGist_eq_some (fmtG : Nat → String) (g : List (String × JVal)) (gist : Gist)
    (h : projectGist fmtG g = some gist) :
    mapIndex g "id" = JVal.str gist.ID ∧ mapIndex g "html_url" = JVal.str gist.HTMLURL ∧
    gist.Description = sprintV fmtG (mapIndex g "description") ∧
    projectFiles fmtG g = some gist.Files := by
  unfold projectGist at h
  cases h0 : projectFiles fmtG g with
  | none => simp [h0] at h
  | some filesMap =>
    cases h1 : asString (mapIndex g "id") with
    | none => simp [h0, h1] at h
    | some id =>
      cases h2 : asString (mapIndex g "html_url") with
      | none => simp [h0, h1, h2] at h
      | some htmlURL =>
        simp only [h0, h1, h2, Option.some.injEq] at h
        subst h
        exact ⟨asString_eq_some _ _ h1, asString_eq_some _ _ h2, rfl, rfl⟩

theorem foldl_appendGist_some (l xs : List Gist) :
    List.foldl appendGist (some l) xs = some (l ++ xs) := by
  induction xs generalizing l with
  | nil => simp
  | cons x rest ih => simp [List.foldl, appendGist, ih]

theorem foldl_appendGist_none_cons (x : Gist) (xs : List Gist) :
    List.foldl appendGist none (x :: xs) = some (x :: xs) := by
  simp [List.foldl, appendGist, foldl_appendGist_some]

theorem projectLoop_eq_none_iff (fmtG : Nat → String) (items : List (List (String × JVal)))
    (acc : Option (List Gist)) :
    projectLoop fmtG items acc = none ↔ items.any itemBad = true := by
  induction items generalizing acc with
  | nil => simp [projectLoop]
  | cons g rest ih =>
    simp only [projectLoop, List.any_cons]
    cases hp : projectGist fmtG g with
    | none => simp [(projectGist_eq_none_iff fmtG g).mp hp]
    | some x =>
      have hb : itemBad g = false := by
        cases hb : itemBad g with
        | false => rfl
        | true => rw [(projectGist_eq_none_iff fmtG g).mpr hb] at hp; cases hp
      simp only [hb, Bool.false_or]
      exact ih _

theorem projectLoop_eq_some (fmtG : Nat → String) (items : List (List (String × JVal)))
    (acc out : Option (List Gist)) (h : projectLoop fmtG items acc = some out) :
    ∃ xs, List.Forall₂ (fun g x => projectGist fmtG g = some x) items xs ∧
      out = List.foldl appendGist acc xs := by
  induction items generalizing acc with
  | nil =>
    simp only [projectLoop, Option.some.injEq] at h
    exact ⟨[], List.Forall₂.nil, by simp [h]⟩
  | cons g rest ih =>
    simp only [projectLoop] at h
    cases hp : projectGist fmtG g with
    | none => simp [hp] at h
    | some x =>
      simp only [hp] at h
      obtain ⟨xs, hxs, hout⟩ := ih _ h
      exact ⟨x :: xs, List.Forall₂.cons hp hxs, by simpa [List.foldl] using hout⟩

theorem unmarshalItems_objects (items : List (List (String × JVal))) :
    unmarshalItems (items.map JVal.obj) = some items := by
  induction items with
  | nil => rfl
  | cons g rest ih => simp [unmarshalItems, unmarshalItem, ih]

theorem unmarshalItems_eq_none_iff (elems : List JVal) :
    unmarshalItems elems = none ↔ elems.all (fun e => isObject e || isNull e) = false := by
  induction elems with
  | nil => simp [unmarshalItems]
  | cons v rest ih =>
    cases h : unmarshalItems rest with
    | none =>
      have := ih.mp h
      rw [List.all_cons, this]
      cases v <;> simp [unmarshalItems, unmarshalItem, h]
    | some ms =>
      have hr : rest.all (fun e => isObject e || isNull e) = true := by
        cases hb : rest.all (fun e => isObject e || isNull e) with
        | true => rfl
        | false => rw [ih.mpr hb] at h; cases h
      rw [List.all_cons, hr]
      cases v <;> simp [unmarshalItems, unmarshalItem, h, isObject, isNull]

theorem unmarshalItems_length (elems : List JVal) (ms : List (List (String × JVal)))
    (h : unmarshalItems elems = some ms) : ms.length = elems.length := by
  induction elems generalizing ms with
  | nil =>
    simp only [unmarshalItems, Option.some.injEq] at h
    subst h; rfl
  | cons v rest ih =>
    simp only [unmarshalItems] at h
    cases h1 : unmarshalItem v with
    | none => simp [h1] at h
    | some m =>
      cases h2 : unmarshalItems rest with
      | none => simp [h1, h2] at h
      | some ms' =>
        simp only [h1, h2, Option.some.injEq] at h
        subst h
        simp [ih ms' h2]

/-! ## Lemmas on the request -/

theorem trimPrefix_slash (rest : String) : trimPrefix ("/" ++ rest) "/" = rest := by
  have h : ("/" ++ rest).data = '/' :: rest.data := rfl
  simp [trimPrefix, h, List.isPrefixOf]

theorem upstreamURL_eq (r : Request) :
    upstreamURL r =
      "https://api.github.com/users/" ++ userOf r ++ "/gists" ++ givenQuery r.query := by
  have e1 : "/gists?per_page=" = "/gists" ++ "?per_page=" := by decide
  have e2 : "/gists?page=" = "/gists" ++ "?page=" := by decide
  unfold upstreamURL buildURL givenQuery nonEmptyParam
  by_cases hp : queryGet r.query "page" = "" <;>
    by_cases hq : queryGet r.query "per_page" = ""
  · simp [hp, hq]
  · simp [hp, hq, String.append_assoc]
    rw [e1, String.append_assoc]
  · simp [hp, hq, String.append_assoc]
    rw [e2, String.append_assoc]
  · simp [hp, hq, String.append_assoc]
    rw [e2, String.append_assoc]

theorem handleUserGists_of_user (fmtG : Nat → String) (net : String → Upstream) (r : Request)
    (hu : userOf r ≠ "") (statusCode : Nat) (body : UpstreamBody)
    (hn : net (upstreamURL r) = Upstream.response statusCode body) :
    handleUserGists fmtG net r = handleResponse fmtG statusCode body := by
  simp [handleUserGists, hu, hn]

/-! ## The claims -/

/-- C3, as amended: for every non-empty username, the upstream URL is
`https://api.github.com/users/<user>/gists` followed by the query string of exactly
the parameters given with a non-empty value (`page=<page>` before
`per_page=<perPage>`, joined by `&`, no trailing `&`, and no `?` at all when
there is none); the handler consults the upstream at that URL only. -/
theorem upstream_url_given_params (fmtG : Nat → String) (net : String → Upstream)
    (r : Request) (hu : userOf r ≠ "") :
    upstreamURL r =
      "https://api.github.com/users/" ++ userOf r ++ "/gists" ++ givenQuery r.query ∧
    (givenQuery r.query =
      if queryGet r.query "page" = "" then
        if queryGet r.query "per_page" = "" then ""
        else "?per_page=" ++ queryGet r.query "per_page"
      else
        if queryGet r.query "per_page" = "" then "?page=" ++ queryGet r.query "page"
        else "?page=" ++ queryGet r.query "page" ++ "&per_page=" ++
          queryGet r.query "per_page") ∧
    ∀ net2 : String → Upstream,
      net2 ("https://api.github.com/users/" ++ userOf r ++ "/gists" ++ givenQuery r.query) =
        net ("https://api.github.com/users/" ++ userOf r ++ "/gists" ++ givenQuery r.query) →
      handleUserGists fmtG net2 r = handleUserGists fmtG net r := by
  refine ⟨upstreamURL_eq r, ?_, ?_⟩
  · unfold givenQuery nonEmptyParam
    by_cases hp : queryGet r.query "page" = "" <;>
      by_cases hq : queryGet r.query "per_page" = "" <;> simp [hp, hq]
  · intro net2 h
    rw [← upstreamURL_eq r] at h
    simp [handleUserGists, hu, h]

/-- Witness of C3: the request `/alice?page=2&per_page=5`. -/
theorem upstream_url_given_params_witness :
    userOf ⟨"/alice", [("page", "2"), ("per_page", "5")]⟩ ≠ "" ∧
    upstreamURL ⟨"/alice", [("page", "2"), ("per_page", "5")]⟩ =
      "https://api.github.com/users/alice/gists?page=2&per_page=5" :=
  ⟨by decide,
   (upstream_url_given_params (fun _ => "") (fun _ => Upstream.transportError)
      ⟨"/alice", [("page", "2"), ("per_page", "5")]⟩ (by decide)).1.trans (by decide)⟩

/-- Counterexample to C3 as stated: in the request `/alice?page=` the parameter
`page` is present (with an empty value), yet the upstream URL has no query
string, where the stated rule gives `?page=`. -/
theorem upstream_url_present_empty_param_counterexample :
    userOf ⟨"/alice", [("page", "")]⟩ = "alice" ∧
    List.lookup "page" [("page", "")] = some "" ∧
    specQuery [("page", "")] = "?page=" ∧
    upstreamURL ⟨"/alice", [("page", "")]⟩ = "https://api.github.com/users/alice/gists" ∧
    upstreamURL ⟨"/alice", [("page", "")]⟩ ≠
      "https://api.github.com/users/" ++ userOf ⟨"/alice", [("page", "")]⟩ ++ "/gists" ++
        specQuery [("page", "")] := by
  decide

/-- C4, as amended: for every request whose path is `/` or the empty string, the
handler responds with status 400 and a body that is exactly `user not specified`
followed by one line feed, whatever the query parameters and the upstream are. -/
theorem empty_user_bad_request (fmtG : Nat → String) (net : String → Upstream)
    (r : Request) (h : r.path = "/" ∨ r.path = "") :
    handleUserGists fmtG net r =
      Outcome.responded
        { status := 400
          headers := [("Content-Type", "text/plain; charset=utf-8"),
                      ("X-Content-Type-Options", "nosniff")]
          body := Body.text "user not specified\n" } := by
  obtain ⟨path, q⟩ := r
  have hu : userOf ⟨path, q⟩ = "" := by
    show trimPrefix path "/" = ""
    rcases h with h | h <;> simp only at h <;> subst h <;> decide
  have hs : "user not specified" ++ "\n" = "user not specified\n" := by decide
  simp [handleUserGists, hu, httpError, hs]

/-- Witness of C4: the request `/?page=2`. -/
theorem empty_user_bad_request_witness :
    (("/" : String) = "/" ∨ ("/" : String) = "") ∧
    handleUserGists (fun _ => "") (fun _ => Upstream.transportError) ⟨"/", [("page", "2")]⟩ =
      Outcome.responded
        { status := 400
          headers := [("Content-Type", "text/plain; charset=utf-8"),
                      ("X-Content-Type-Options", "nosniff")]
          body := Body.text "user not specified\n" } :=
  ⟨Or.inl rfl, empty_user_bad_request _ _ ⟨"/", [("page", "2")]⟩ (Or.inl rfl)⟩

/-- Counterexample to C4 as stated: for the request `/` the body is not exactly
`user not specified`; it ends with a line feed. -/
theorem empty_user_body_counterexample :
    ¬ ∃ resp, handleUserGists (fun _ => "") (fun _ => Upstream.transportError) ⟨"/", []⟩ =
        Outcome.responded resp ∧ resp.status = 400 ∧
        resp.body = Body.text "user not specified" := by
  rintro ⟨resp, h1, _, h3⟩
  have h : handleUserGists (fun _ => "") (fun _ => Upstream.transportError) ⟨"/", []⟩ =
      Outcome.responded
        { status := 400
          headers := [("Content-Type", "text/plain; charset=utf-8"),
                      ("X-Content-Type-Options", "nosniff")]
          body := Body.text "user not specified\n" } := rfl
  rw [h] at h1
  injection h1 with h1
  subst h1
  injection h3 with h3
  exact absurd h3 (by decide)

/-- C5, as amended: for every upstream response whose status code `s` is not 200
and lies between 100 and 999, whatever its body is (readable or not), the handler
responds with the same status code `s` and the body `GitHub API error: <s>` (`s`
in decimal) followed by one line feed. -/
theorem upstream_error_forwarded (fmtG : Nat → String) (net : String → Upstream)
    (r : Request) (s : Nat) (body : UpstreamBody) (hu : userOf r ≠ "")
    (hn : net (upstreamURL r) = Upstream.response s body) (hs : s ≠ 200)
    (hlo : 100 ≤ s) (hhi : s ≤ 999) :
    handleUserGists fmtG net r =
      Outcome.responded
        { status := s
          headers := [("Content-Type", "text/plain; charset=utf-8"),
                      ("X-Content-Type-Options", "nosniff")]
          body := Body.text ("GitHub API error: " ++ toString s ++ "\n") } := by
  rw [handleUserGists_of_user fmtG net r hu s body hn]
  have hcode : ¬ (s < 100 ∨ 999 < s) := by omega
  simp [handleResponse, hs, httpError, hcode]

/-- Witness of C5: the upstream answers 404 to the request `/alice`. -/
theorem upstream_error_forwarded_witness :
    userOf ⟨"/alice", []⟩ ≠ "" ∧ (404 : Nat) ≠ 200 ∧ 100 ≤ 404 ∧ 404 ≤ 999 ∧
    handleUserGists (fun _ => "")
        (fun _ => Upstream.response 404 UpstreamBody.unreadable) ⟨"/alice", []⟩ =
      Outcome.responded
        { status := 404
          headers := [("Content-Type", "text/plain; charset=utf-8"),
                      ("X-Content-Type-Options", "nosniff")]
          body := Body.text "GitHub API error: 404\n" } :=
  ⟨by decide, by decide, by decide, by decide,
   (upstream_error_forwarded (fun _ => "")
      (fun _ => Upstream.response 404 UpstreamBody.unreadable) ⟨"/alice", []⟩ 404
      UpstreamBody.unreadable (by decide) rfl (by decide) (by decide) (by decide)).trans rfl⟩

/-- Counterexample to C5 as stated: when the upstream answers 404 the body is not
`GitHub API error: 404`, it ends with a line feed; and when the upstream answers
with the status code 99, which is not 200, the handler writes no response at all:
`http.Error` panics on the invalid status code. -/
theorem upstream_error_body_counterexample :
    (¬ ∃ resp, handleUserGists (fun _ => "")
          (fun _ => Upstream.response 404 (UpstreamBody.json (JVal.arr []))) ⟨"/alice", []⟩ =
        Outcome.responded resp ∧ resp.status = 404 ∧
        resp.body = Body.text "GitHub API error: 404") ∧
    handleUserGists (fun _ => "")
        (fun _ => Upstream.response 99 (UpstreamBody.json (JVal.arr []))) ⟨"/alice", []⟩ =
      Outcome.panicked := by
  refine ⟨?_, rfl⟩
  rintro ⟨resp, h1, _, h3⟩
  have h : handleUserGists (fun _ => "")
      (fun _ => Upstream.response 404 (UpstreamBody.json (JVal.arr []))) ⟨"/alice", []⟩ =
      Outcome.responded
        { status := 404
          headers := [("Content-Type", "text/plain; charset=utf-8"),
                      ("X-Content-Type-Options", "nosniff")]
          body := Body.text "GitHub API error: 404\n" } := rfl
  rw [h] at h1
  injection h1 with h1
  subst h1
  injection h3 with h3
  exact absurd h3 (by decide)

/-- C6, as amended: for every upstream response with status 200 whose body is not
a JSON text, or is a JSON value other than `null` that is not an array whose
elements are all objects or `null` (a JSON object, a string, a number, an array
containing a non-object such as `[1]`), the handler responds with status 500 and
the body `failed to parse GitHub response` followed by one line feed. -/
theorem unparsable_body_internal_error (fmtG : Nat → String) (net : String → Upstream)
    (r : Request) (body : UpstreamBody) (hu : userOf r ≠ "")
    (hn : net (upstreamURL r) = Upstream.response 200 body)
    (hb : body = UpstreamBody.malformed ∨
      ∃ v, body = UpstreamBody.json v ∧ isNull v = false ∧
        isArrayOfObjectsOrNulls v = false) :
    handleUserGists fmtG net r =
      Outcome.responded
        { status := 500
          headers := [("Content-Type", "text/plain; charset=utf-8"),
                      ("X-Content-Type-Options", "nosniff")]
          body := Body.text "failed to parse GitHub response\n" } := by
  rw [handleUserGists_of_user fmtG net r hu 200 body hn]
  have hs : "failed to parse GitHub response" ++ "\n" =
      "failed to parse GitHub response\n" := by decide
  rcases hb with hb | ⟨v, hb, h1, h2⟩
  · subst hb
    simp [handleResponse, httpError, hs]
  · subst hb
    have hd : unmarshalGists v = none := by
      cases v with
      | null => simp [isNull] at h1
      | arr elems =>
        simp only [isArrayOfObjectsOrNulls] at h2
        simpa [unmarshalGists] using (unmarshalItems_eq_none_iff elems).mpr h2
      | _ => rfl
    simp [handleResponse, hd, httpError, hs]

/-- Witness of C6: the upstream answers 200 with the body `[1]`. -/
theorem unparsable_body_internal_error_witness :
    userOf ⟨"/alice", []⟩ ≠ "" ∧
    isNull (JVal.arr [JVal.num 1]) = false ∧
    isArrayOfObjectsOrNulls (JVal.arr [JVal.num 1]) = false ∧
    handleUserGists (fun _ => "")
        (fun _ => Upstream.response 200 (UpstreamBody.json (JVal.arr [JVal.num 1])))
        ⟨"/alice", []⟩ =
      Outcome.responded
        { status := 500
          headers := [("Content-Type", "text/plain; charset=utf-8"),
                      ("X-Content-Type-Options", "nosniff")]
          body := Body.text "failed to parse GitHub response\n" } :=
  ⟨by decide, rfl, rfl,
   unparsable_body_internal_error (fun _ => "")
      (fun _ => Upstream.response 200 (UpstreamBody.json (JVal.arr [JVal.num 1])))
      ⟨"/alice", []⟩ (UpstreamBody.json (JVal.arr [JVal.num 1])) (by decide) rfl
      (Or.inr ⟨JVal.arr [JVal.num 1], rfl, rfl, rfl⟩)⟩

/-- Counterexample to C6 as stated: the bodies `null` and `[null]` are not JSON
arrays of JSON objects, yet the handler answers the first with status 200 and the
JSON body `null`, and panics on the second; neither gets status 500. -/
theorem null_body_not_rejected_counterexample :
    isArrayOfObjects JVal.null = false ∧
    handleUserGists (fun _ => "")
        (fun _ => Upstream.response 200 (UpstreamBody.json JVal.null)) ⟨"/alice", []⟩ =
      Outcome.responded
        { status := 200
          headers := [("Content-Type", "application/json")]
          body := Body.json JVal.null } ∧
    isArrayOfObjects (JVal.arr [JVal.null]) = false ∧
    handleUserGists (fun _ => "")
        (fun _ => Upstream.response 200 (UpstreamBody.json (JVal.arr [JVal.null])))
        ⟨"/alice", []⟩ = Outcome.panicked :=
  ⟨rfl, rfl, rfl, rfl⟩

/-- C8, as amended: for every request path that starts with a slash, the username
placed in the upstream URL is the whole rest of the path after that one leading
slash, further slashes and segments included; it is the first path segment
exactly when the rest contains no slash. -/
theorem user_is_rest_of_path (rest : String) (q : List (String × String)) :
    userOf ⟨"/" ++ rest, q⟩ = rest ∧
    upstreamURL ⟨"/" ++ rest, q⟩ =
      "https://api.github.com/users/" ++ rest ++ "/gists" ++ givenQuery q ∧
    (userOf ⟨"/" ++ rest, q⟩ = firstSegment ("/" ++ rest) ↔ '/' ∉ rest.data) := by
  have hu : userOf ⟨"/" ++ rest, q⟩ = rest := trimPrefix_slash rest
  refine ⟨hu, ?_, ?_⟩
  · rw [upstreamURL_eq, hu]
  · rw [hu]
    unfold firstSegment
    rw [trimPrefix_slash]
    constructor
    · intro h hmem
      have h2 : rest.data = rest.data.takeWhile (fun c => c != '/') := congrArg String.data h
      have h3 := (List.takeWhile_eq_self_iff.mp h2.symm) '/' hmem
      simp at h3
    · intro h
      have h2 : rest.data.takeWhile (fun c => c != '/') = rest.data := by
        apply List.takeWhile_eq_self_iff.mpr
        intro c hc
        have : c ≠ '/' := fun e => h (e ▸ hc)
        simpa using this
      rw [h2]

/-- Counterexample to C8 as stated: for the path `/alice/extra` the first path
segment is `alice`, yet the username placed in the upstream URL is
`alice/extra`. -/
theorem user_not_first_segment_counterexample :
    firstSegment "/alice/extra" = "alice" ∧
    userOf ⟨"/alice/extra", []⟩ = "alice/extra" ∧
    userOf ⟨"/alice/extra", []⟩ ≠ firstSegment "/alice/extra" ∧
    upstreamURL ⟨"/alice/extra", []⟩ = "https://api.github.com/users/alice/extra/gists" := by
  decide

/-- C2: for every upstream item that projects (no required string is missing), the
projected Gist exists and its files mapping has distinct keys; when `files` is a
JSON object, every key whose value is a JSON object maps to a GistFile whose
filename and raw_url are the entry's `filename` and `raw_url` strings and whose
language is the textual form of the entry's `language`, and every other key is
absent from the mapping; when `files` is absent or not an object the mapping is
empty. -/
theorem files_projection (fmtG : Nat → String) (g : List (String × JVal))
    (hwf : itemBad g = false) :
    ∃ gist, projectGist fmtG g = some gist ∧ (gist.Files.map Prod.fst).Nodup ∧
      (∀ files, mapIndex g "files" = JVal.obj files → ∀ name,
        (∀ fMap, List.lookup name files = some (JVal.obj fMap) →
          ∃ gf, List.lookup name gist.Files = some gf ∧
            mapIndex fMap "filename" = JVal.str gf.Filename ∧
            mapIndex fMap "raw_url" = JVal.str gf.RawURL ∧
            gf.Language = sprintV fmtG (mapIndex fMap "language")) ∧
        ((∀ fMap, List.lookup name files ≠ some (JVal.obj fMap)) →
          List.lookup name gist.Files = none)) ∧
      ((∀ files, mapIndex g "files" ≠ JVal.obj files) → gist.Files = []) := by
  obtain ⟨gist, hg⟩ := projectGist_isSome fmtG g hwf
  have hfiles := (projectGist_eq_some fmtG g gist hg).2.2.2
  refine ⟨gist, hg, ?_⟩
  unfold projectFiles at hfiles
  cases hm : mapIndex g "files" with
  | obj files =>
    simp only [hm, asMap] at hfiles
    refine ⟨projectFilesLoop_nodup fmtG _ [] _ (by simp) hfiles, ?_, ?_⟩
    · intro files2 e name
      injection e with e
      subst e
      have hl := projectFilesLoop_lookup fmtG _ [] _ (nodup_keys_mapEntries files) hfiles name
      rw [lookup_mapEntries] at hl
      constructor
      · intro fMap hf
        have h1 := hl.1 fMap hf
        have hmem : (name, JVal.obj fMap) ∈ mapEntries files :=
          mem_of_lookup_eq_some _ _ _ (by rw [lookup_mapEntries]; exact hf)
        cases hp : projectFile fmtG fMap with
        | none =>
          have hbad := (projectFile_eq_none_iff fmtG fMap).mp hp
          have hany : (mapEntries files).any (fun p => fileEntryBad p.2) = true :=
            List.any_eq_true.mpr ⟨_, hmem, hbad⟩
          rw [(projectFilesLoop_eq_none_iff fmtG _ []).mpr hany] at hfiles
          cases hfiles
        | some gf =>
          rw [hp] at h1
          exact ⟨gf, h1, projectFile_eq_some fmtG fMap gf hp⟩
      · intro hno
        have h2 := hl.2 hno
        simpa [List.lookup] using h2
    · intro hno
      exact absurd rfl (hno files)
  | _ =>
    simp only [hm, asMap, Option.some.injEq] at hfiles
    rw [← hfiles]
    refine ⟨by simp, ?_, ?_⟩
    · intro files e
      cases e
    · intro _
      rfl

/-- Witness of C2: an item whose `files` has one object-valued entry `a.txt`
(without a `language`) and one entry `b.txt` that is not an object. -/
theorem files_projection_witness :
    itemBad itemWithoutDescription = false ∧
    ∃ gist, projectGist (fun _ => "") itemWithoutDescription = some gist ∧
      (∃ gf, List.lookup "a.txt" gist.Files = some gf ∧ gf.Filename = "a.txt" ∧
        gf.RawURL = "http://r" ∧ gf.Language = "<nil>") ∧
      List.lookup "b.txt" gist.Files = none := by
  refine ⟨by decide, ?_⟩
  obtain ⟨gist, h1, _, h3, _⟩ := files_projection (fun _ => "") itemWithoutDescription
    (by decide)
  refine ⟨gist, h1, ?_, ?_⟩
  · obtain ⟨gf, e1, e2, e3, e4⟩ := (h3 _ rfl "a.txt").1 _ rfl
    have e2b : JVal.str "a.txt" = JVal.str gf.Filename := e2
    have e3b : JVal.str "http://r" = JVal.str gf.RawURL := e3
    injection e2b with e2b
    injection e3b with e3b
    exact ⟨gf, e1, e2b.symm, e3b.symm, e4⟩
  · exact (h3 _ rfl "b.txt").2 (fun fMap e => by cases e)

/-- C7: for every upstream item that projects, the projected Gist carries a
description field (its JSON object has the member `description`); when the item
has no `description` member or its `description` is JSON null the value is the
literal string `<nil>`, and when `description` is a JSON string the value is that
string. -/
theorem description_text (fmtG : Nat → String) (g : List (String × JVal))
    (hwf : itemBad g = false) :
    ∃ gist, projectGist fmtG g = some gist ∧
      (∃ members, encodeGist gist = JVal.obj members ∧
        List.lookup "description" members = some (JVal.str gist.Description)) ∧
      ((List.lookup "description" g = none ∨ List.lookup "description" g = some JVal.null) →
        gist.Description = "<nil>") ∧
      (∀ s, List.lookup "description" g = some (JVal.str s) → gist.Description = s) := by
  obtain ⟨gist, hg⟩ := projectGist_isSome fmtG g hwf
  have hd := (projectGist_eq_some fmtG g gist hg).2.2.1
  refine ⟨gist, hg, ⟨_, rfl, by simp [List.lookup]⟩, ?_, ?_⟩
  · intro h
    rw [hd]
    rcases h with h | h <;> simp [mapIndex, h, sprintV]
  · intro s h
    rw [hd]
    simp [mapIndex, h, sprintV]

/-- Witness of C7: an item without a `description` member. -/
theorem description_text_witness :
    itemBad itemWithoutDescription = false ∧
    List.lookup "description" itemWithoutDescription = none ∧
    ∃ gist, projectGist (fun _ => "") itemWithoutDescription = some gist ∧
      gist.Description = "<nil>" := by
  refine ⟨by decide, rfl, ?_⟩
  obtain ⟨gist, h1, _, h3, _⟩ := description_text (fun _ => "") itemWithoutDescription
    (by decide)
  exact ⟨gist, h1, h3 (Or.inl rfl)⟩

theorem handleResponse_objects (fmtG : Nat → String) (items : List (List (String × JVal))) :
    handleResponse fmtG 200 (UpstreamBody.json (JVal.arr (items.map JVal.obj))) =
      match projectLoop fmtG items none with
      | none => Outcome.panicked
      | some gists =>
        Outcome.responded
          { status := 200
            headers := [("Content-Type", "application/json")]
            body := Body.json (encodeGists gists) } := by
  simp [handleResponse, unmarshalGists, unmarshalItems_objects]

theorem handleResponse_wellformed (fmtG : Nat → String)
    (items : List (List (String × JVal))) (hne : items ≠ [])
    (hwf : ∀ g ∈ items, itemBad g = false) :
    ∃ gists, gists.length = items.length ∧
      List.Forall₂ (fun g x => projectGist fmtG g = some x ∧
        mapIndex g "id" = JVal.str x.ID ∧ mapIndex g "html_url" = JVal.str x.HTMLURL ∧
        x.Description = sprintV fmtG (mapIndex g "description")) items gists ∧
      handleResponse fmtG 200 (UpstreamBody.json (JVal.arr (items.map JVal.obj))) =
        Outcome.responded
          { status := 200
            headers := [("Content-Type", "application/json")]
            body := Body.json (JVal.arr (gists.map encodeGist)) } := by
  rw [handleResponse_objects]
  cases hp : projectLoop fmtG items none with
  | none =>
    obtain ⟨g, hg, hbad⟩ := List.any_eq_true.mp ((projectLoop_eq_none_iff fmtG items none).mp hp)
    rw [hwf g hg] at hbad
    cases hbad
  | some out =>
    obtain ⟨xs, hxs, hout⟩ := projectLoop_eq_some fmtG items none out hp
    have hlen : xs.length = items.length := hxs.length_eq.symm
    cases xs with
    | nil =>
      exact absurd (List.length_eq_zero.mp hlen.symm) hne
    | cons x rest =>
      rw [foldl_appendGist_none_cons] at hout
      subst hout
      refine ⟨x :: rest, hlen, ?_, rfl⟩
      exact hxs.imp (fun g y h =>
        ⟨h, (projectGist_eq_some fmtG g y h).1, (projectGist_eq_some fmtG g y h).2.1,
          (projectGist_eq_some fmtG g y h).2.2.1⟩)

/-- C1, as amended: for every upstream response with status 200 whose body is a
JSON array of n well-formed objects with n >= 1, the handler responds with status
200, header `Content-Type: application/json`, and a body that is a JSON array of
exactly n Gist records, the i-th being the projection (id, description, html_url,
files) of the i-th upstream item; for the specification's one-item scenario the
output record equals the input item. -/
theorem gists_array_in_upstream_order (fmtG : Nat → String) (net : String → Upstream)
    (r : Request) (items : List (List (String × JVal))) (hu : userOf r ≠ "")
    (hn : net (upstreamURL r) =
      Upstream.response 200 (UpstreamBody.json (JVal.arr (items.map JVal.obj))))
    (hne : items ≠ []) (hwf : ∀ g ∈ items, itemBad g = false) :
    (∃ gists, gists.length = items.length ∧
      List.Forall₂ (fun g x => projectGist fmtG g = some x ∧
        mapIndex g "id" = JVal.str x.ID ∧ mapIndex g "html_url" = JVal.str x.HTMLURL ∧
        x.Description = sprintV fmtG (mapIndex g "description")) items gists ∧
      handleUserGists fmtG net r =
        Outcome.responded
          { status := 200
            headers := [("Content-Type", "application/json")]
            body := Body.json (JVal.arr (gists.map encodeGist)) }) ∧
    handleUserGists fmtG
        (fun _ => Upstream.response 200 (UpstreamBody.json (JVal.arr [JVal.obj scenarioItem])))
        ⟨"/alice", []⟩ =
      Outcome.responded
        { status := 200
          headers := [("Content-Type", "application/json")]
          body := Body.json (JVal.arr [JVal.obj scenarioItem]) } := by
  refine ⟨?_, rfl⟩
  rw [handleUserGists_of_user fmtG net r hu _ _ hn]
  exact handleResponse_wellformed fmtG items hne hwf

/-- Witness of C1: the specification's one-item scenario, asked as `/alice`. -/
theorem gists_array_in_upstream_order_witness :
    userOf ⟨"/alice", []⟩ ≠ "" ∧ [scenarioItem] ≠ [] ∧
    (∀ g ∈ [scenarioItem], itemBad g = false) ∧
    ∃ gists : List Gist, gists.length = 1 ∧
      handleUserGists (fun _ => "")
          (fun _ => Upstream.response 200
            (UpstreamBody.json (JVal.arr ([scenarioItem].map JVal.obj)))) ⟨"/alice", []⟩ =
        Outcome.responded
          { status := 200
            headers := [("Content-Type", "application/json")]
            body := Body.json (JVal.arr (gists.map encodeGist)) } := by
  have hwf : ∀ g ∈ [scenarioItem], itemBad g = false := by
    intro g hg
    rw [List.mem_singleton.mp hg]
    decide
  refine ⟨by decide, by simp, hwf, ?_⟩
  obtain ⟨⟨gists, h1, _, h3⟩, _⟩ := gists_array_in_upstream_order (fun _ => "")
    (fun _ => Upstream.response 200
      (UpstreamBody.json (JVal.arr ([scenarioItem].map JVal.obj))))
    ⟨"/alice", []⟩ [scenarioItem] (by decide) rfl (by simp) hwf
  exact ⟨gists, h1, h3⟩

/-- Counterexample to C1 as stated: for n = 0, the upstream body `[]`, the handler
responds with status 200 and the JSON body `null`, which is not a JSON array. -/
theorem no_gists_body_not_array_counterexample :
    handleUserGists (fun _ => "")
        (fun _ => Upstream.response 200
          (UpstreamBody.json (JVal.arr (([] : List (List (String × JVal))).map JVal.obj))))
        ⟨"/alice", []⟩ =
      Outcome.responded
        { status := 200
          headers := [("Content-Type", "application/json")]
          body := Body.json JVal.null } ∧
    isArray JVal.null = false :=
  ⟨rfl, rfl⟩

/-- C9: given a 200 upstream response whose body decodes as a JSON array of
objects, the handler panics (writing no response) if and only if some item has
an `id` or `html_url` that is missing or not a JSON string, or an object-valued
`files` containing an object-valued entry whose `filename` or `raw_url` is missing
or not a JSON string; in every other case it completes with status 200. -/
theorem panic_iff_malformed_item (fmtG : Nat → String) (net : String → Upstream)
    (r : Request) (items : List (List (String × JVal))) (hu : userOf r ≠ "")
    (hn : net (upstreamURL r) =
      Upstream.response 200 (UpstreamBody.json (JVal.arr (items.map JVal.obj)))) :
    (handleUserGists fmtG net r = Outcome.panicked ↔ ∃ g ∈ items, itemBad g = true) ∧
    (handleUserGists fmtG net r ≠ Outcome.panicked →
      ∃ resp, handleUserGists fmtG net r = Outcome.responded resp ∧ resp.status = 200) := by
  rw [handleUserGists_of_user fmtG net r hu _ _ hn, handleResponse_objects]
  cases hp : projectLoop fmtG items none with
  | none =>
    refine ⟨⟨fun _ => ?_, fun _ => rfl⟩, fun h => absurd rfl h⟩
    exact List.any_eq_true.mp ((projectLoop_eq_none_iff fmtG items none).mp hp)
  | some out =>
    refine ⟨⟨fun h => Outcome.noConfusion h, fun h => ?_⟩, fun _ => ⟨_, rfl, rfl⟩⟩
    rw [(projectLoop_eq_none_iff fmtG items none).mpr (List.any_eq_true.mpr h)] at hp
    cases hp

/-- Witness of C9: one item whose `id` is a number makes the handler panic. -/
theorem panic_iff_malformed_item_witness :
    userOf ⟨"/alice", []⟩ ≠ "" ∧
    handleUserGists (fun _ => "")
        (fun _ => Upstream.response 200 (UpstreamBody.json (JVal.arr
          ([scenarioItem, [("id", JVal.num 1), ("html_url", JVal.str "http://x")]].map
            JVal.obj)))) ⟨"/alice", []⟩ = Outcome.panicked :=
  ⟨by decide,
   (panic_iff_malformed_item (fun _ => "")
      (fun _ => Upstream.response 200 (UpstreamBody.json (JVal.arr
        ([scenarioItem, [("id", JVal.num 1), ("html_url", JVal.str "http://x")]].map
          JVal.obj)))) ⟨"/alice", []⟩
      [scenarioItem, [("id", JVal.num 1), ("html_url", JVal.str "http://x")]]
      (by decide) rfl).1.mpr
    ⟨[("id", JVal.num 1), ("html_url", JVal.str "http://x")], by simp, by decide⟩⟩

/-- C10: when the upstream responds 200 with the empty JSON array `[]`, the slice
`gists` is never appended to and stays nil, and the handler responds 200 with `Content-Type: application/json` and the JSON body
`null` rather than `[]`; whenever the upstream responds 200 with a JSON array and
the handler responds 200, the body is a JSON array exactly when the upstream
array has at least one item; and it does respond 200 with a JSON array of as many
records when the array holds at least one item and all items are well-formed
objects. -/
theorem empty_array_gives_null (fmtG : Nat → String) (net : String → Upstream)
    (r : Request) (elems : List JVal) (hu : userOf r ≠ "")
    (hn : net (upstreamURL r) = Upstream.response 200 (UpstreamBody.json (JVal.arr elems))) :
    (elems = [] →
      projectLoop fmtG [] none = some none ∧ encodeGists none = JVal.null ∧
      handleUserGists fmtG net r =
        Outcome.responded
          { status := 200
            headers := [("Content-Type", "application/json")]
            body := Body.json JVal.null }) ∧
    (∀ resp, handleUserGists fmtG net r = Outcome.responded resp → resp.status = 200 →
      ((∃ xs, resp.body = Body.json (JVal.arr xs)) ↔ elems ≠ [])) ∧
    (∀ items : List (List (String × JVal)), elems = items.map JVal.obj → items ≠ [] →
      (∀ g ∈ items, itemBad g = false) →
      ∃ xs, xs.length = elems.length ∧
        handleUserGists fmtG net r =
          Outcome.responded
            { status := 200
              headers := [("Content-Type", "application/json")]
              body := Body.json (JVal.arr xs) }) := by
  rw [handleUserGists_of_user fmtG net r hu _ _ hn]
  refine ⟨?_, ?_, ?_⟩
  · intro he
    subst he
    exact ⟨rfl, rfl, rfl⟩
  · intro resp hr hs
    cases elems with
    | nil =>
      have h0 : handleResponse fmtG 200 (UpstreamBody.json (JVal.arr [])) =
          Outcome.responded
            { status := 200
              headers := [("Content-Type", "application/json")]
              body := Body.json JVal.null } := rfl
      rw [h0] at hr
      injection hr with hr
      subst hr
      simp
    | cons v rest =>
      refine ⟨fun _ => by simp, fun _ => ?_⟩
      simp only [handleResponse, ne_eq, not_true_eq_false, if_false, unmarshalGists] at hr
      cases hd : unmarshalItems (v :: rest) with
      | none =>
        simp only [hd] at hr
        injection hr with hr
        subst hr
        simp [httpError] at hs
      | some rawGists =>
        simp only [hd] at hr
        have hlen := unmarshalItems_length _ _ hd
        cases hp : projectLoop fmtG rawGists none with
        | none => simp [hp] at hr
        | some out =>
          simp only [hp] at hr
          obtain ⟨xs, hxs, hout⟩ := projectLoop_eq_some fmtG rawGists none out hp
          have hlen2 : xs.length = (v :: rest).length := by
            rw [← hlen]; exact hxs.length_eq.symm
          cases xs with
          | nil => simp at hlen2
          | cons x xs2 =>
            rw [foldl_appendGist_none_cons] at hout
            subst hout
            injection hr with hr
            subst hr
            exact ⟨_, rfl⟩
  · intro items he hne hwf
    subst he
    obtain ⟨gists, hlen, _, hres⟩ := handleResponse_wellformed fmtG items hne hwf
    exact ⟨gists.map encodeGist, by simp [hlen], hres⟩

/-- Witness of C10: the upstream answers 200 with `[]` to the request `/alice`. -/
theorem empty_array_gives_null_witness :
    userOf ⟨"/alice", []⟩ ≠ "" ∧
    handleUserGists (fun _ => "")
        (fun _ => Upstream.response 200 (UpstreamBody.json (JVal.arr []))) ⟨"/alice", []⟩ =
      Outcome.responded
        { status := 200
          headers := [("Content-Type", "application/json")]
          body := Body.json JVal.null } :=
  ⟨by decide,
   (empty_array_gives_null (fun _ => "")
      (fun _ => Upstream.response 200 (UpstreamBody.json (JVal.arr []))) ⟨"/alice", []⟩ []
      (by decide) rfl).1 rfl |>.2.2⟩

end GistsServer
